import Mathlib

/-!
Verification of the pipgrip package-source adapter
(`src/pipgrip/package_source.py`).

The adapter is embedded shallowly: the mutable `PackageSource` object becomes
an explicit state record threaded through each method, the external
collaborator `discover_dependencies_and_versions` becomes an oracle function
parameter, and `pkg_resources` key normalization becomes a `parseKey`
function parameter (both collaborators are outside the sources under study,
per the spec's out-of-scope list).  Python exceptions become `Except`
results.
-/

set_option autoImplicit false

namespace Pipgrip

/-- A comparator appearing in a requirement clause.  The `!=` comparator of
the full grammar denotes the complement of a point and hence not a single
range; the spec's statement that clauses are ANDed "into one Range" covers
the range-shaped comparators modelled here. -/
inductive Comparator
  | eq
  | ge
  | le
  | gt
  | lt
  deriving DecidableEq

/-- Display of a comparator, used to rebuild the comma-joined constraint
string (`"".join(tup)` over `req.specs`). -/
def Comparator.str : Comparator → String
  | .eq => "=="
  | .ge => ">="
  | .le => "<="
  | .gt => ">"
  | .lt => "<"

/-- One comparator clause `op version` of a requirement. -/
structure Clause where
  op : Comparator
  ver : Nat
  deriving DecidableEq

/-- `",".join(["".join(tup) for tup in req.specs])` (source line 107/126). -/
def joinClauses (cs : List Clause) : String :=
  String.intercalate "," (cs.map (fun c => c.op.str ++ toString c.ver))

/-- A semver `VersionRange`: optional bounds plus inclusion flags. -/
structure VersionRange where
  min : Option Nat
  max : Option Nat
  include_min : Bool
  include_max : Bool
  deriving DecidableEq

/-- The open range accepting any version (what `*` parses to). -/
def anyRange : VersionRange := ⟨none, none, false, false⟩

/-- Does a lower bound (with inclusion flag) admit `v`?  `none` is `-∞`. -/
def lowOK (mn : Option Nat) (inc : Bool) (v : Nat) : Bool :=
  match mn with
  | none => true
  | some m => if inc then decide (m ≤ v) else decide (m < v)

/-- Does an upper bound (with inclusion flag) admit `v`?  `none` is `+∞`. -/
def highOK (mx : Option Nat) (inc : Bool) (v : Nat) : Bool :=
  match mx with
  | none => true
  | some m => if inc then decide (v ≤ m) else decide (v < m)

/-- Membership of a version in a `VersionRange`. -/
def rangeAllows (r : VersionRange) (v : Nat) : Bool :=
  lowOK r.min r.include_min v && highOK r.max r.include_max v

/-- The stronger (larger) of two lower bounds; at equal bounds the
intersection is inclusive only when both sides are. -/
def maxLow (p q : Option Nat × Bool) : Option Nat × Bool :=
  match p.1, q.1 with
  | none, _ => q
  | some _, none => p
  | some x, some y =>
    if x < y then q else if y < x then p else (p.1, p.2 && q.2)

/-- The stronger (smaller) of two upper bounds; at equal bounds the
intersection is inclusive only when both sides are. -/
def minHigh (p q : Option Nat × Bool) : Option Nat × Bool :=
  match p.1, q.1 with
  | none, _ => q
  | some _, none => p
  | some x, some y =>
    if x < y then p else if y < x then q else (p.1, p.2 && q.2)

/-- Intersection of two version ranges. -/
def intersectRanges (a b : VersionRange) : VersionRange :=
  let lo := maxLow (a.min, a.include_min) (b.min, b.include_min)
  let hi := minHigh (a.max, a.include_max) (b.max, b.include_max)
  ⟨lo.1, hi.1, lo.2, hi.2⟩

/-- The range denoted by a single comparator clause. -/
def clauseRange (c : Clause) : VersionRange :=
  match c.op with
  | .eq => ⟨some c.ver, some c.ver, true, true⟩
  | .ge => ⟨some c.ver, none, true, false⟩
  | .gt => ⟨some c.ver, none, false, false⟩
  | .le => ⟨none, some c.ver, false, true⟩
  | .lt => ⟨none, some c.ver, false, false⟩

/-- The version set a single clause denotes, read directly off the
comparator's meaning. -/
def clauseAllows (c : Clause) (v : Nat) : Bool :=
  match c.op with
  | .eq => v == c.ver
  | .ge => decide (c.ver ≤ v)
  | .gt => decide (c.ver < v)
  | .le => decide (v ≤ c.ver)
  | .lt => decide (v < c.ver)

/-- Modelled from the spec: `parse_constraint` of the semver module is not
under the sources under study; per the spec, comma-joined comparator clauses
are ANDed into one range (raw strings are modelled in parsed clause-list
form).  Union-valued constraints (`||`, `!=`) of the richer grammar are
covered below by quantifying over arbitrary `SemverValue`s. -/
def parse_constraint (clauses : List Clause) : VersionRange :=
  clauses.foldl (fun acc c => intersectRanges acc (clauseRange c)) anyRange

/-- A semver `VersionUnion`: the `.ranges` attribute read by
`convert_dependency`. -/
structure VersionUnion where
  ranges : List VersionRange
  deriving DecidableEq

/-- A parsed constraint is a `VersionRange` or a `VersionUnion`
(the `isinstance` branch in `convert_dependency`). -/
inductive SemverValue
  | range (r : VersionRange)
  | union (u : VersionUnion)
  deriving DecidableEq

/-- Modelled from the spec: display of a semver range (semver
`VersionRange.__str__` is outside the sources); used only as a label. -/
def rangeStr (r : VersionRange) : String :=
  let lo := match r.min with
    | none => ""
    | some v => (if r.include_min then ">=" else ">") ++ toString v
  let hi := match r.max with
    | none => ""
    | some v => (if r.include_max then "<=" else "<") ++ toString v
  if lo = "" && hi = "" then "*"
  else if lo = "" then hi
  else if hi = "" then lo
  else lo ++ "," ++ hi

/-- The adapter's `Dependency` value: name, lazily parsed constraint, raw
constraint string. -/
structure Dependency where
  name : String
  constraint : SemverValue
  pretty_constraint : String
  deriving DecidableEq

/-- `Dependency.__init__` (source lines 17-20): stores the name and
`parse_constraint(constraint or "*")`; the empty clause list is the empty
string, which is falsy in Python and falls back to `"*"`, the open range. -/
def Dependency.init (name : String) (clauses : List Clause) : Dependency :=
  { name := name
  , constraint :=
      if clauses.isEmpty then .range anyRange
      else .range (parse_constraint clauses)
  , pretty_constraint := joinClauses clauses }

/-- `pkg_resources.Requirement` in parsed form: distribution name and
comparator clauses.  The requirement-string grammar itself is parsed by an
external collaborator, outside the sources under study. -/
structure Requirement where
  name : String
  specs : List Clause
  deriving DecidableEq

/-- A mixology `Range` as constructed by this adapter: bounds, inclusion
flags, and the optional display label passed as fifth constructor argument
(the mixology algebra itself is outside the sources under study). -/
structure MRange where
  min : Option Nat
  max : Option Nat
  include_min : Bool
  include_max : Bool
  str : Option String
  deriving DecidableEq

/-- A mixology `Union`, observed through its constituent ranges. -/
structure MUnion where
  ranges : List MRange
  deriving DecidableEq

/-- Does the lower-bound key of `a` come before that of `b`?  (Sorting key
for union normalization.) -/
def lowerLE (a b : MRange) : Bool :=
  match a.min, b.min with
  | none, _ => true
  | some _, none => false
  | some x, some y =>
    decide (x < y) || (x == y && (a.include_min || !b.include_min))

/-- Insert one range into a list sorted by `lowerLE`. -/
def insertByLower (r : MRange) : List MRange → List MRange
  | [] => [r]
  | s :: rest =>
    if lowerLE s r then s :: insertByLower r rest else r :: s :: rest

/-- Do two ranges (with `a`'s lower bound first) overlap or touch? -/
def touches (a b : MRange) : Bool :=
  match a.max, b.min with
  | none, _ => true
  | _, none => true
  | some x, some y =>
    decide (y < x) || (y == x && (a.include_max || b.include_min))

/-- Merge two overlapping/adjacent ranges, `a`'s lower bound coming first. -/
def mergeTwo (a b : MRange) : MRange :=
  let hi : Option Nat × Bool :=
    match a.max, b.max with
    | none, _ => (none, a.include_max)
    | _, none => (none, b.include_max)
    | some x, some y =>
      if x < y then (some y, b.include_max)
      else if y < x then (some x, a.include_max)
      else (some x, a.include_max || b.include_max)
  ⟨a.min, hi.1, a.include_min, hi.2, none⟩

/-- One fuelled pass merging adjacent/overlapping ranges of a sorted list. -/
def mergeSortedRanges : Nat → List MRange → List MRange
  | 0, l => l
  | _ + 1, [] => []
  | _ + 1, [r] => [r]
  | fuel + 1, a :: b :: rest =>
    if touches a b then mergeSortedRanges fuel (mergeTwo a b :: rest)
    else a :: mergeSortedRanges fuel (b :: rest)

/-- Modelled from the spec: mixology `Union.of` (outside the sources under
study) normalizes by sorting the ranges, then merging overlapping/adjacent
ones. -/
def MUnion.of (rs : List MRange) : MUnion :=
  let sorted := rs.foldr insertByLower []
  ⟨mergeSortedRanges sorted.length sorted⟩

/-- A mixology constraint body: a `Range` or a `Union`. -/
inductive RangeOrUnion
  | range (r : MRange)
  | union (u : MUnion)
  deriving DecidableEq

/-- A mixology `Constraint`: a package name paired with a range or union. -/
structure Constraint where
  package : String
  value : RangeOrUnion
  deriving DecidableEq

/-- `PackageSource.convert_dependency` (source lines 164-191): structural
mapping of the dependency's parsed constraint into the mixology algebra. -/
def convert_dependency (d : Dependency) : Constraint :=
  match d.constraint with
  | .range c =>
    ⟨d.name, .range ⟨c.min, c.max, c.include_min, c.include_max,
      some d.pretty_constraint⟩⟩
  | .union u =>
    ⟨d.name, .union (MUnion.of (u.ranges.map
      (fun r => MRange.mk r.min r.max r.include_min r.include_max
        (some (rangeStr r)))))⟩

/-- Modelled from the spec: the mixology constraint objects handed to
`_versions_for` by the engine are observed only through `allows_any` and
their display string. -/
structure ConstraintObj where
  allowsAny : MRange → Bool
  str : String

/-- A discovery specification string, kept in structured form: the package
name part together with the suffix the three call sites append
(`req.__str__()` in `root_dep`, `package + str(constraint)` in
`_versions_for`, `package + "==" + str(version)` in `dependencies_for`). -/
inductive Spec
  | plain (name : String) (specs : List Clause)
  | withConstraint (name : String) (c : String)
  | pinned (name : String) (v : Nat)
  deriving DecidableEq

/-- The name part of a discovery spec (what `pkg_resources` key extraction
is applied to). -/
def Spec.specName : Spec → String
  | .plain n _ => n
  | .withConstraint n _ => n
  | .pinned n _ => n

/-- The result shape of the external collaborator
`discover_dependencies_and_versions`. -/
structure DiscoveryResult where
  available : List Nat
  version : Nat
  requires : List Requirement
  deriving DecidableEq

/-- Python exceptions this adapter can raise: the `ValueError` of `add`
(the spec's `DuplicateVersionError`) and dict `KeyError`s. -/
inductive PyError
  | duplicateVersion (name : String) (version : Nat)
  | keyError
  deriving DecidableEq

/-- Association-list lookup (Python dict read). -/
def alookup {α β : Type} [DecidableEq α] : List (α × β) → α → Option β
  | [], _ => none
  | (k, v) :: rest, a => if k = a then some v else alookup rest a

/-- Association-list write (Python dict write: update in place, else
append). -/
def aupdate {α β : Type} [DecidableEq α] : List (α × β) → α → β → List (α × β)
  | [], a, b => [(a, b)]
  | (k, v) :: rest, a, b =>
    if k = a then (a, b) :: rest else (k, v) :: aupdate rest a b

/-- The cache entry for one version: `none` is Python's `None` placeholder
("dependencies not yet known"), `some ds` a concrete dependency list. -/
abbrev DepEntry := Option (List Dependency)

/-- The mutable state of a `PackageSource` object: the root dependency list,
the package→version→dependencies cache, and an audit log of external
discovery calls made so far (the `cache_dir`/index fields are opaque and
only threaded to the collaborator, which is already abstracted as the
oracle). -/
structure PSState where
  root_dependencies : List Dependency
  packages : List (String × List (Nat × DepEntry))
  calls : List Spec
  deriving DecidableEq

/-- The freshly initialized state (`__init__`, source lines 70-80). -/
def initState : PSState := ⟨[], [], []⟩

/-- The fixed sentinel root version `Nat.parse("0.0.0")`. -/
def root_version : Nat := 0

/-- A package identifier as passed by the engine: the reserved root
sentinel (`self.root` of the mixology base class) or a name string. -/
inductive Package
  | root
  | named (name : String)
  deriving DecidableEq

/-- The cache entry recorded for `(name, version)`, if any. -/
def entryOf (st : PSState) (name : String) (version : Nat) :
    Option DepEntry :=
  alookup ((alookup st.packages name).getD []) version

/-- The dependency list built by `add` from raw requirements (source lines
104-108): each is parsed, its clauses re-joined with commas, and wrapped in
a `Dependency` under the normalized key. -/
def mkDependencies (parseKey : String → String) (deps : List Requirement) :
    List Dependency :=
  deps.map (fun r => Dependency.init (parseKey r.name) r.specs)

/-- Write one cache entry: `self._packages[name][version] = e` (with the
enclosing `self._packages[name] = {}` initialization when absent). -/
def setEntry (st : PSState) (name : String) (version : Nat)
    (e : DepEntry) : PSState :=
  let pkgMap := (alookup st.packages name).getD []
  { st with packages := aupdate st.packages name (aupdate pkgMap version e) }

/-- `PackageSource.add` (source lines 86-110).  Raises `ValueError` iff the
version is already present with a concrete list and the new `deps` is also
concrete; otherwise records `none` (placeholder) or the built dependency
list. -/
def add (parseKey : String → String) (st : PSState) (name : String)
    (version : Nat) (deps : Option (List Requirement)) :
    Except PyError PSState :=
  let pkgMap := (alookup st.packages name).getD []
  match alookup pkgMap version with
  | some old =>
    if deps.isSome && old.isSome then
      .error (.duplicateVersion name version)
    else
      match deps with
      | none => .ok (setEntry st name version none)
      | some ds =>
        .ok (setEntry st name version (some (mkDependencies parseKey ds)))
  | none =>
    match deps with
    | none => .ok (setEntry st name version none)
    | some ds =>
      .ok (setEntry st name version (some (mkDependencies parseKey ds)))

/-- The `for version in to_create["available"]` loop of `discover_and_add`:
each available version is added with `deps=None`. -/
def addAvailable (parseKey : String → String) (st : PSState) (name : String) :
    List Nat → Except PyError PSState
  | [] => .ok st
  | v :: vs =>
    match add parseKey st name v none with
    | .error e => .error e
    | .ok st' => addAvailable parseKey st' name vs

/-- The cumulative effect of the `available` loop: every listed version's
entry set to the placeholder, in order. -/
def resetAll (st : PSState) (name : String) (vs : List Nat) : PSState :=
  vs.foldl (fun s v => setEntry s name v none) st

/-- `PackageSource.discover_and_add` (source lines 112-122): one external
call, then every available version is registered as a placeholder, then the
discovered version's concrete requirement list is registered. -/
def discover_and_add (parseKey : String → String)
    (oracle : Spec → DiscoveryResult) (st : PSState) (spec : Spec) :
    Except PyError PSState :=
  let key := parseKey spec.specName
  let res := oracle spec
  let st1 := { st with calls := st.calls ++ [spec] }
  match addAvailable parseKey st1 key res.available with
  | .error e => .error e
  | .ok st2 => add parseKey st2 key res.version (some res.requires)

/-- `PackageSource.root_dep` (source lines 124-128): append a `Dependency`
built from the requirement to the root list, then eagerly discover. -/
def root_dep (parseKey : String → String)
    (oracle : Spec → DiscoveryResult) (st : PSState) (req : Requirement) :
    Except PyError PSState :=
  let d := Dependency.init (parseKey req.name) req.specs
  let st1 := { st with root_dependencies := st.root_dependencies ++ [d] }
  discover_and_add parseKey oracle st1 (.plain req.name req.specs)

/-- Python chars of `str.replace("||", "|")`: collapse double pipes
left-to-right. -/
def collapsePipes : List Char → List Char
  | [] => []
  | [c] => [c]
  | c1 :: c2 :: rest =>
    if c1 = '|' && c2 = '|' then '|' :: collapsePipes rest
    else c1 :: collapsePipes (c2 :: rest)

/-- `str(constraint).replace("||", "|").replace(" ", "")` from
`_versions_for` (source line 141); `str(None)` is `"None"`. -/
def constraintSuffix (constraint : Option ConstraintObj) : String :=
  let s := match constraint with
    | none => "None"
    | some c => c.str
  ⟨(collapsePipes s.data).filter (fun c => c ≠ ' ')⟩

/-- The filter condition of the `_versions_for` loop (source lines 148-150):
no constraint, or `constraint.allows_any(Range(version, version, True,
True))`. -/
def passesConstraint (constraint : Option ConstraintObj) (v : Nat) :
    Bool :=
  match constraint with
  | none => true
  | some c => c.allowsAny ⟨some v, some v, true, true, none⟩

/-- Insert into a descending-sorted list, stably. -/
def insertDesc (v : Nat) : List Nat → List Nat
  | [] => [v]
  | w :: ws => if v ≤ w then w :: insertDesc v ws else v :: w :: ws

/-- `sorted(versions, reverse=True)`: descending sort. -/
def sortDesc (l : List Nat) : List Nat :=
  l.foldr insertDesc []

/-- The filter-then-sort of `_versions_for` over a package's version map. -/
def filterSort (pkgMap : List (Nat × DepEntry))
    (constraint : Option ConstraintObj) : List Nat :=
  sortDesc (((pkgMap.map Prod.fst)).filter (passesConstraint constraint))

/-- `PackageSource._versions_for` (source lines 130-153): discover if the
package is unknown; if still unknown return `[]`; otherwise filter the known
versions by the constraint and sort descending. -/
def versions_for (parseKey : String → String)
    (oracle : Spec → DiscoveryResult) (st : PSState) (package : String)
    (constraint : Option ConstraintObj) :
    Except PyError (PSState × List Nat) :=
  match alookup st.packages package with
  | some pkgMap => .ok (st, filterSort pkgMap constraint)
  | none =>
    match discover_and_add parseKey oracle st
        (.withConstraint package (constraintSuffix constraint)) with
    | .error e => .error e
    | .ok st' =>
      match alookup st'.packages package with
      | none => .ok (st', [])
      | some pkgMap => .ok (st', filterSort pkgMap constraint)

/-- `PackageSource.dependencies_for` (source lines 155-162).  The root
package short-circuits to the fixed root list.  Otherwise the cache is
indexed (a missing package or version is a `KeyError`); a `None` entry
triggers discovery pinned to `package==version`, after which the entry is
re-read — still possibly `None` if discovery chose another version, hence
the `Option` in the result. -/
def dependencies_for (parseKey : String → String)
    (oracle : Spec → DiscoveryResult) (st : PSState) (package : Package)
    (version : Nat) :
    Except PyError (PSState × Option (List Dependency)) :=
  match package with
  | .root => .ok (st, some st.root_dependencies)
  | .named name =>
    match alookup st.packages name with
    | none => .error .keyError
    | some pkgMap =>
      match alookup pkgMap version with
      | none => .error .keyError
      | some entry =>
        if entry.isNone then
          match discover_and_add parseKey oracle st (.pinned name version) with
          | .error e => .error e
          | .ok st' =>
            match alookup st'.packages name with
            | none => .error .keyError
            | some pkgMap' =>
              match alookup pkgMap' version with
              | none => .error .keyError
              | some entry' => .ok (st', entry')
        else .ok (st, entry)

/-- The `Dependency` class as a Python object: it defines no `__eq__`
(source lines 16-23), so `==` falls back to object identity; identity is
modelled by an allocation id, distinct allocations receiving distinct
ids. -/
structure DependencyObj where
  objId : Nat
  name : String
  pretty_constraint : String
  deriving DecidableEq

/-- Python `==` on two `Dependency` objects: default object identity, the
class defining no `__eq__`. -/
def DependencyObj.pyEq (a b : DependencyObj) : Bool :=
  a.objId == b.objId

/-! ### Concrete scenario data used by witnesses and counterexamples -/

/-- Identity key normalization (names already in normalized form). -/
def idKey : String → String := id

/-- The bare requirement `x` (no comparator clauses). -/
def reqX : Requirement := ⟨"x", []⟩

/-- The `Dependency` that `add` builds from `reqX`. -/
def depX : Dependency := ⟨"x", .range anyRange, ""⟩

/-- An oracle for package `p` with versions `1` and `2`: discovery pinned to
either version reports both versions as available (as a real index does),
version `1` requiring `x` and version `2` requiring nothing. -/
def resetOracle : Spec → DiscoveryResult := fun spec =>
  match spec with
  | .pinned "p" 1 => ⟨[1, 2], 1, [reqX]⟩
  | .pinned "p" 2 => ⟨[1, 2], 2, []⟩
  | _ => ⟨[], 0, []⟩

/-- Package `p` known with versions `1` and `2`, dependencies of both not
yet discovered. -/
def resetSt0 : PSState := ⟨[], [("p", [(1, none), (2, none)])], []⟩

/-- State after `dependencies_for(p, 1)` on `resetSt0`: `(p, 1)` populated,
one external call made. -/
def resetSt1 : PSState :=
  ⟨[], [("p", [(1, some [depX]), (2, none)])], [.pinned "p" 1]⟩

/-- State after `dependencies_for(p, 2)` on `resetSt1`: the discovery for
`p==2` re-added version `1` with `deps=None`, resetting the populated
entry. -/
def resetSt2 : PSState :=
  ⟨[], [("p", [(1, none), (2, some [])])], [.pinned "p" 1, .pinned "p" 2]⟩

/-- State after a second `dependencies_for(p, 1)`: a second external call
for `p==1` was made. -/
def resetSt3 : PSState :=
  ⟨[], [("p", [(1, some [depX]), (2, none)])],
    [.pinned "p" 1, .pinned "p" 2, .pinned "p" 1]⟩

/-- A concrete requirement list `["a>=1"]`. -/
def dupReqs : List Requirement := [⟨"a", [⟨.ge, 1⟩]⟩]

/-- Package `p`, version `1` recorded with exactly the concrete dependency
list that `dupReqs` builds. -/
def dupSt : PSState := ⟨[], [("p", [(1, some (mkDependencies idKey dupReqs))])], []⟩

/-- Package `p`, version `1` recorded as a placeholder. -/
def phSt : PSState := ⟨[], [("p", [(1, none)])], []⟩

/-- A key normalization sending every spelling to `r` (pkg_resources
normalizes case and punctuation, so the looked-up spelling can differ from
the registered key). -/
def constKeyR : String → String := fun _ => "r"

/-- An oracle knowing nothing: one available version `0` of whatever is
asked, with no requirements. -/
def nullOracle : Spec → DiscoveryResult := fun _ => ⟨[], 0, []⟩

/-- A dependency whose parsed constraint is a union of two ranges. -/
def unionDep : Dependency :=
  ⟨"u", .union ⟨[⟨some 1, some 2, true, false⟩, ⟨some 3, none, false, false⟩]⟩,
    "<2||>3"⟩

/-- A dependency whose parsed constraint is a single range. -/
def rangeDep : Dependency :=
  ⟨"n", .range ⟨some 1, some 2, true, false⟩, ">=1,<2"⟩

/-- One `Dependency` object of name `a`. -/
def dObjA : DependencyObj := ⟨0, "a", ">=1"⟩

/-- A distinct `Dependency` object with the same name. -/
def dObjB : DependencyObj := ⟨1, "a", ">=2"⟩

/-! ### Helper lemmas -/

theorem bool_eq_of_iff {a b : Bool} (h : a = true ↔ b = true) : a = b := by
  cases a <;> cases b <;> simp_all

theorem alookup_aupdate_self {α β : Type} [DecidableEq α]
    (l : List (α × β)) (k : α) (v : β) :
    alookup (aupdate l k v) k = some v := by
  induction l with
  | nil => simp [alookup, aupdate]
  | cons p rest ih =>
    obtain ⟨k', v'⟩ := p
    by_cases h : k' = k <;> simp [alookup, aupdate, h, ih]

theorem alookup_aupdate_ne {α β : Type} [DecidableEq α]
    (l : List (α × β)) (k a : α) (v : β) (h : k ≠ a) :
    alookup (aupdate l k v) a = alookup l a := by
  induction l with
  | nil => simp [alookup, aupdate, h]
  | cons p rest ih =>
    obtain ⟨k', v'⟩ := p
    by_cases hk : k' = k <;> simp [alookup, aupdate, hk, h, ih]

theorem mem_insertDesc (x v : Nat) (l : List Nat) :
    x ∈ insertDesc v l ↔ x = v ∨ x ∈ l := by
  induction l with
  | nil => simp [insertDesc]
  | cons w ws ih =>
    by_cases h : v ≤ w <;> simp [insertDesc, h, ih] <;> tauto

theorem sorted_insertDesc (v : Nat) (l : List Nat)
    (h : List.Sorted (· ≥ ·) l) :
    List.Sorted (· ≥ ·) (insertDesc v l) := by
  induction l with
  | nil => simp [insertDesc]
  | cons w ws ih =>
    rw [List.sorted_cons] at h
    by_cases hv : v ≤ w
    · rw [insertDesc]
      simp only [hv, if_pos]
      rw [List.sorted_cons]
      refine ⟨?_, ih h.2⟩
      intro b hb
      rcases (mem_insertDesc b v ws).mp hb with hb | hb
      · exact hb ▸ hv
      · exact h.1 b hb
    · rw [insertDesc]
      simp only [hv, if_neg, if_false]
      rw [List.sorted_cons]
      refine ⟨?_, List.sorted_cons.mpr h⟩
      intro b hb
      rcases List.mem_cons.mp hb with hb | hb
      · exact hb ▸ le_of_not_le hv
      · exact le_trans (h.1 b hb) (le_of_not_le hv)

theorem mem_sortDesc (x : Nat) (l : List Nat) :
    x ∈ sortDesc l ↔ x ∈ l := by
  induction l with
  | nil => simp [sortDesc]
  | cons w ws ih =>
    simp only [sortDesc, List.foldr] at ih ⊢
    rw [mem_insertDesc, ih, List.mem_cons]

theorem sorted_sortDesc (l : List Nat) :
    List.Sorted (· ≥ ·) (sortDesc l) := by
  induction l with
  | nil => simp [sortDesc]
  | cons w ws ih =>
    simpa only [sortDesc, List.foldr] using sorted_insertDesc w _ ih

theorem lowOK_maxLow (p q : Option Nat × Bool) (v : Nat) :
    lowOK (maxLow p q).1 (maxLow p q).2 v
      = (lowOK p.1 p.2 v && lowOK q.1 q.2 v) := by
  obtain ⟨mp, ip⟩ := p
  obtain ⟨mq, iq⟩ := q
  apply bool_eq_of_iff
  cases mp <;> cases mq <;> cases ip <;> cases iq <;>
    simp only [maxLow, lowOK, Bool.and_eq_true, decide_eq_true_eq, if_true,
      if_false, Bool.true_and, Bool.and_true, Bool.false_and, Bool.and_false] <;>
    (try split_ifs) <;>
    simp only [lowOK, Bool.and_eq_true, decide_eq_true_eq, if_true, if_false,
      true_iff, iff_true, true_and, and_true, Bool.true_and, iff_self_and,
      Bool.true_eq, Bool.false_eq, and_self] <;>
    first
      | omega
      | tauto

theorem highOK_minHigh (p q : Option Nat × Bool) (v : Nat) :
    highOK (minHigh p q).1 (minHigh p q).2 v
      = (highOK p.1 p.2 v && highOK q.1 q.2 v) := by
  obtain ⟨mp, ip⟩ := p
  obtain ⟨mq, iq⟩ := q
  apply bool_eq_of_iff
  cases mp <;> cases mq <;> cases ip <;> cases iq <;>
    simp only [minHigh, highOK, Bool.and_eq_true, decide_eq_true_eq, if_true,
      if_false, Bool.true_and, Bool.and_true, Bool.false_and, Bool.and_false] <;>
    (try split_ifs) <;>
    simp only [highOK, Bool.and_eq_true, decide_eq_true_eq, if_true, if_false,
      true_iff, iff_true, true_and, and_true, Bool.true_and, iff_self_and,
      Bool.true_eq, Bool.false_eq, and_self] <;>
    first
      | omega
      | tauto

theorem rangeAllows_intersect (a b : VersionRange) (v : Nat) :
    rangeAllows (intersectRanges a b) v = (rangeAllows a v && rangeAllows b v) := by
  simp only [rangeAllows, intersectRanges]
  rw [lowOK_maxLow, highOK_minHigh]
  apply bool_eq_of_iff
  simp only [Bool.and_eq_true]
  tauto

theorem rangeAllows_anyRange (v : Nat) : rangeAllows anyRange v = true := rfl

theorem rangeAllows_clauseRange (c : Clause) (v : Nat) :
    rangeAllows (clauseRange c) v = clauseAllows c v := by
  obtain ⟨op, w⟩ := c
  apply bool_eq_of_iff
  cases op <;>
    simp only [clauseRange, clauseAllows, rangeAllows, lowOK, highOK,
      Bool.and_eq_true, decide_eq_true_eq, if_true, if_false, beq_iff_eq,
      Bool.false_eq_true, Bool.and_true, Bool.true_and] <;>
    omega

theorem rangeAllows_parse_aux (cs : List Clause) (acc : VersionRange)
    (v : Nat) :
    rangeAllows (cs.foldl (fun r c => intersectRanges r (clauseRange c)) acc) v
      = (rangeAllows acc v && cs.all (fun c => clauseAllows c v)) := by
  induction cs generalizing acc with
  | nil => simp
  | cons c rest ih =>
    simp only [List.foldl, List.all_cons]
    rw [ih, rangeAllows_intersect, rangeAllows_clauseRange]
    apply bool_eq_of_iff
    simp only [Bool.and_eq_true]
    tauto

theorem rangeAllows_parse (cs : List Clause) (v : Nat) :
    rangeAllows (parse_constraint cs) v = cs.all (fun c => clauseAllows c v) := by
  rw [parse_constraint, rangeAllows_parse_aux, rangeAllows_anyRange,
    Bool.true_and]

theorem setEntry_calls (st : PSState) (n : String) (v : Nat) (e : DepEntry) :
    (setEntry st n v e).calls = st.calls := rfl

theorem setEntry_root (st : PSState) (n : String) (v : Nat) (e : DepEntry) :
    (setEntry st n v e).root_dependencies = st.root_dependencies := rfl

theorem entryOf_setEntry_self (st : PSState) (n : String) (v : Nat)
    (e : DepEntry) : entryOf (setEntry st n v e) n v = some e := by
  simp only [entryOf, setEntry, alookup_aupdate_self, Option.getD_some]

theorem entryOf_setEntry_ne (st : PSState) (n : String) (v : Nat)
    (e : DepEntry) (n' : String) (v' : Nat) (h : n' ≠ n ∨ v' ≠ v) :
    entryOf (setEntry st n v e) n' v' = entryOf st n' v' := by
  by_cases hn : n' = n
  · subst hn
    rcases h with h | h
    · exact absurd rfl h
    · simp only [entryOf, setEntry, alookup_aupdate_self, Option.getD_some]
      exact alookup_aupdate_ne _ v v' e (fun hv => h hv.symm)
  · simp only [entryOf, setEntry]
    rw [alookup_aupdate_ne _ n n' _ (fun hv => hn hv.symm)]

theorem add_none_eq (pk : String → String) (st : PSState) (n : String)
    (v : Nat) : add pk st n v none = .ok (setEntry st n v none) := by
  simp only [add, setEntry]
  cases alookup ((alookup st.packages n).getD []) v with
  | none => rfl
  | some old => simp

theorem add_some_error_iff (pk : String → String) (st : PSState) (n : String)
    (v : Nat) (ds : List Requirement) :
    (∃ e, add pk st n v (some ds) = .error e)
      ↔ (∃ old, entryOf st n v = some (some old)) := by
  simp only [add, entryOf]
  cases h : alookup ((alookup st.packages n).getD []) v with
  | none => simp
  | some old =>
    cases old with
    | none => simp
    | some ds' => simp

theorem add_some_ok_eq (pk : String → String) (st : PSState) (n : String)
    (v : Nat) (ds : List Requirement) (st' : PSState)
    (h : add pk st n v (some ds) = .ok st') :
    st' = setEntry st n v (some (mkDependencies pk ds)) := by
  simp only [add] at h
  cases he : alookup ((alookup st.packages n).getD []) v with
  | none =>
    rw [he] at h
    simp only [Except.ok.injEq] at h
    exact h.symm
  | some old =>
    rw [he] at h
    cases old with
    | none =>
      simp only [Option.isSome_some, Option.isSome_none, Bool.and_false,
        Bool.false_eq_true, if_false, Except.ok.injEq] at h
      exact h.symm
    | some ds' => simp at h

theorem addAvailable_eq (pk : String → String) (n : String) (vs : List Nat) :
    ∀ st : PSState, addAvailable pk st n vs = .ok (resetAll st n vs) := by
  induction vs with
  | nil => intro st; rfl
  | cons v rest ih =>
    intro st
    simp only [addAvailable, add_none_eq, resetAll, List.foldl]
    exact ih _

theorem resetAll_calls (n : String) (vs : List Nat) :
    ∀ st : PSState, (resetAll st n vs).calls = st.calls := by
  induction vs with
  | nil => intro st; rfl
  | cons v rest ih =>
    intro st
    simp only [resetAll, List.foldl] at ih ⊢
    rw [ih, setEntry_calls]

theorem resetAll_root (n : String) (vs : List Nat) :
    ∀ st : PSState, (resetAll st n vs).root_dependencies = st.root_dependencies := by
  induction vs with
  | nil => intro st; rfl
  | cons v rest ih =>
    intro st
    simp only [resetAll, List.foldl] at ih ⊢
    rw [ih, setEntry_root]

theorem entryOf_resetAll_other (n : String) (vs : List Nat) (n' : String)
    (v' : Nat) (h : n' ≠ n) :
    ∀ st : PSState, entryOf (resetAll st n vs) n' v' = entryOf st n' v' := by
  induction vs with
  | nil => intro st; rfl
  | cons v rest ih =>
    intro st
    simp only [resetAll, List.foldl] at ih ⊢
    rw [ih, entryOf_setEntry_ne _ _ _ _ _ _ (Or.inl h)]

theorem entryOf_resetAll_not_mem (n : String) (vs : List Nat) (v' : Nat)
    (h : v' ∉ vs) :
    ∀ st : PSState, entryOf (resetAll st n vs) n v' = entryOf st n v' := by
  induction vs with
  | nil => intro st; rfl
  | cons v rest ih =>
    intro st
    simp only [List.mem_cons, not_or] at h
    simp only [resetAll, List.foldl] at ih ⊢
    rw [ih h.2, entryOf_setEntry_ne _ _ _ _ _ _ (Or.inr h.1)]

theorem entryOf_resetAll_mem (n : String) (vs : List Nat) (v' : Nat)
    (h : v' ∈ vs) :
    ∀ st : PSState, entryOf (resetAll st n vs) n v' = some none := by
  induction vs with
  | nil => exact absurd h (List.not_mem_nil v')
  | cons v rest ih =>
    intro st
    simp only [resetAll, List.foldl]
    by_cases hr : v' ∈ rest
    · exact ih hr _
    · have hv : v' = v := by
        rcases List.mem_cons.mp h with h' | h'
        · exact h'
        · exact absurd h' hr
      subst hv
      have := entryOf_resetAll_not_mem n rest v' hr (setEntry st n v' none)
      simp only [resetAll] at this
      rw [this, entryOf_setEntry_self]

theorem discover_ok_shape (pk : String → String)
    (oracle : Spec → DiscoveryResult) (st : PSState) (spec : Spec)
    (st' : PSState) (h : discover_and_add pk oracle st spec = .ok st') :
    st' = setEntry
      (resetAll { st with calls := st.calls ++ [spec] } (pk spec.specName)
        (oracle spec).available)
      (pk spec.specName) (oracle spec).version
      (some (mkDependencies pk (oracle spec).requires)) := by
  simp only [discover_and_add, addAvailable_eq] at h
  exact add_some_ok_eq _ _ _ _ _ _ h

theorem discover_ok_calls (pk : String → String)
    (oracle : Spec → DiscoveryResult) (st : PSState) (spec : Spec)
    (st' : PSState) (h : discover_and_add pk oracle st spec = .ok st') :
    st'.calls = st.calls ++ [spec] := by
  rw [discover_ok_shape pk oracle st spec st' h, setEntry_calls,
    resetAll_calls]

theorem discover_ok_root (pk : String → String)
    (oracle : Spec → DiscoveryResult) (st : PSState) (spec : Spec)
    (st' : PSState) (h : discover_and_add pk oracle st spec = .ok st') :
    st'.root_dependencies = st.root_dependencies := by
  rw [discover_ok_shape pk oracle st spec st' h, setEntry_root,
    resetAll_root]

theorem mem_filterSort (v : Nat) (pm : List (Nat × DepEntry))
    (c : Option ConstraintObj) :
    v ∈ filterSort pm c ↔ v ∈ pm.map Prod.fst ∧ passesConstraint c v = true := by
  rw [filterSort, mem_sortDesc, List.mem_filter]

theorem sorted_filterSort (pm : List (Nat × DepEntry))
    (c : Option ConstraintObj) :
    List.Sorted (· ≥ ·) (filterSort pm c) :=
  sorted_sortDesc _

/-! ### Claims -/

/-- Claim C1: for every package and constraint, `_versions_for` returns
exactly the versions known for that package (in the adapter state at return
time) such that the constraint is absent or `allows_any` of the degenerate
inclusive range `[v, v]` holds, sorted in descending version order. -/
theorem versions_for_exact (pk : String → String)
    (oracle : Spec → DiscoveryResult) (st : PSState) (package : String)
    (constraint : Option ConstraintObj) (st' : PSState) (vs : List Nat)
    (h : versions_for pk oracle st package constraint = .ok (st', vs)) :
    List.Sorted (· ≥ ·) vs ∧
    (∀ v, v ∈ vs ↔
      ((∃ pm, alookup st'.packages package = some pm ∧ v ∈ pm.map Prod.fst) ∧
        passesConstraint constraint v = true)) := by
  unfold versions_for at h
  split at h
  next pm h0 =>
    simp only [Except.ok.injEq, Prod.mk.injEq] at h
    obtain ⟨hst, hvs⟩ := h
    subst hst
    subst hvs
    refine ⟨sorted_filterSort _ _, fun v => ?_⟩
    rw [mem_filterSort]
    simp [h0]
  next h0 =>
    split at h
    next e hd => simp at h
    next st1 hd =>
      split at h
      next h1 =>
        simp only [Except.ok.injEq, Prod.mk.injEq] at h
        obtain ⟨hst, hvs⟩ := h
        subst hst
        subst hvs
        refine ⟨by simp, fun v => ?_⟩
        simp [h1]
      next pm h1 =>
        simp only [Except.ok.injEq, Prod.mk.injEq] at h
        obtain ⟨hst, hvs⟩ := h
        subst hst
        subst hvs
        refine ⟨sorted_filterSort _ _, fun v => ?_⟩
        rw [mem_filterSort]
        simp [h1]

/-- Witness for C1 at a concrete adapter state: package `p` has versions
`1` and `2`, no constraint, and the call returns `[2, 1]`. -/
theorem versions_for_exact_witness :
    List.Sorted (· ≥ ·) ([2, 1] : List Nat) ∧
    (∀ v, v ∈ ([2, 1] : List Nat) ↔
      ((∃ pm, alookup resetSt0.packages "p" = some pm ∧ v ∈ pm.map Prod.fst) ∧
        passesConstraint none v = true)) :=
  versions_for_exact idKey nullOracle resetSt0 "p" none resetSt0 [2, 1] rfl

/-- Claim C2 (amended): once the dependency list for `(P, V)` is populated,
a call to `dependencies_for(P, V)` on that state returns the cached list and
performs no external call (the state, including the call log, is unchanged).
The unamended "regardless of any other adapter calls made in between" is
refuted by `dependencies_for_rediscovery_after_reset`: an intervening
discovery for the same package re-registers the version with the placeholder
and a later call discovers again. -/
theorem dependencies_for_populated_cached (pk : String → String)
    (oracle : Spec → DiscoveryResult) (st : PSState) (name : String)
    (version : Nat) (ds : List Dependency)
    (h : entryOf st name version = some (some ds)) :
    dependencies_for pk oracle st (.named name) version = .ok (st, some ds) := by
  unfold entryOf at h
  cases hp : alookup st.packages name with
  | none => rw [hp] at h; simp [alookup] at h
  | some pm =>
    rw [hp] at h
    simp only [Option.getD_some] at h
    simp only [dependencies_for, hp, h, Option.isNone_some,
      Bool.false_eq_true, if_false]

/-- Witness for the amended C2: on `resetSt1`, where `(p, 1)` is populated,
the call returns the cached list with no state change. -/
theorem dependencies_for_populated_cached_witness :
    entryOf resetSt1 "p" 1 = some (some [depX]) ∧
    dependencies_for idKey resetOracle resetSt1 (.named "p") 1
      = .ok (resetSt1, some [depX]) :=
  ⟨rfl, dependencies_for_populated_cached idKey resetOracle resetSt1 "p" 1
    [depX] rfl⟩

/-- Counterexample to C2 as stated: `dependencies_for(p, 1)` populates
`(p, 1)` with one external call; an intervening `dependencies_for(p, 2)`
triggers a discovery whose `available` list re-registers version `1` with
the placeholder; the next `dependencies_for(p, 1)` then performs a second
external call for `p==1` (the pinned spec appears twice in the call log). -/
theorem dependencies_for_rediscovery_after_reset :
    dependencies_for idKey resetOracle resetSt0 (.named "p") 1
      = .ok (resetSt1, some [depX]) ∧
    entryOf resetSt1 "p" 1 = some (some [depX]) ∧
    dependencies_for idKey resetOracle resetSt1 (.named "p") 2
      = .ok (resetSt2, some []) ∧
    entryOf resetSt2 "p" 1 = some none ∧
    dependencies_for idKey resetOracle resetSt2 (.named "p") 1
      = .ok (resetSt3, some [depX]) ∧
    resetSt1.calls = [.pinned "p" 1] ∧
    resetSt3.calls = [.pinned "p" 1, .pinned "p" 2, .pinned "p" 1] :=
  ⟨rfl, rfl, rfl, rfl, rfl, rfl, rfl⟩

/-- Claim C3 (amended): registering a concrete dependency list fails with
the duplicate-version error exactly when the recorded entry is itself
concrete — whether or not the new data agrees with the recorded data (see
`add_duplicate_error_with_identical_data`); over a placeholder or a fresh
slot it succeeds and records the built list. -/
theorem add_concrete_over_concrete_iff (pk : String → String) (st : PSState)
    (n : String) (v : Nat) (ds : List Requirement) :
    ((∃ e, add pk st n v (some ds) = .error e)
      ↔ (∃ old, entryOf st n v = some (some old))) ∧
    (∀ st', add pk st n v (some ds) = .ok st' →
      entryOf st' n v = some (some (mkDependencies pk ds))) := by
  refine ⟨add_some_error_iff pk st n v ds, fun st' h => ?_⟩
  rw [add_some_ok_eq pk st n v ds st' h, entryOf_setEntry_self]

/-- Witness for the amended C3: registering concrete data over a recorded
placeholder succeeds and populates the entry. -/
theorem add_concrete_over_concrete_iff_witness :
    entryOf phSt "p" 1 = some none ∧
    entryOf (setEntry phSt "p" 1 (some (mkDependencies idKey dupReqs))) "p" 1
      = some (some (mkDependencies idKey dupReqs)) :=
  ⟨rfl, (add_concrete_over_concrete_iff idKey phSt "p" 1 dupReqs).2 _ rfl⟩

/-- Counterexample to C3 as stated: the error is raised even when the newly
supplied data is identical to the recorded data, so it is not raised "only
when the newly supplied data conflicts with the recorded data". -/
theorem add_duplicate_error_with_identical_data :
    entryOf dupSt "p" 1 = some (some (mkDependencies idKey dupReqs)) ∧
    add idKey dupSt "p" 1 (some dupReqs)
      = .error (.duplicateVersion "p" 1) :=
  ⟨rfl, rfl⟩

/-- Claim C4: for a package not yet in the cache, `_versions_for` first
triggers exactly one external discovery call (the call log grows by exactly
the one spec); if the package is still unknown after that discovery, it
returns the empty sequence rather than raising. -/
theorem versions_for_unknown (pk : String → String)
    (oracle : Spec → DiscoveryResult) (st : PSState) (package : String)
    (constraint : Option ConstraintObj)
    (h : alookup st.packages package = none) :
    ∀ st' vs, versions_for pk oracle st package constraint = .ok (st', vs) →
      st'.calls = st.calls
        ++ [Spec.withConstraint package (constraintSuffix constraint)] ∧
      (alookup st'.packages package = none → vs = []) := by
  intro st' vs hv
  unfold versions_for at hv
  split at hv
  next pm h0 => rw [h] at h0; cases h0
  next h0 =>
    split at hv
    next e hd => simp at hv
    next st1 hd =>
      have hcalls := discover_ok_calls _ _ _ _ _ hd
      split at hv
      next h1 =>
        simp only [Except.ok.injEq, Prod.mk.injEq] at hv
        obtain ⟨hst, hvs⟩ := hv
        subst hst
        subst hvs
        exact ⟨hcalls, fun _ => rfl⟩
      next pm h1 =>
        simp only [Except.ok.injEq, Prod.mk.injEq] at hv
        obtain ⟨hst, hvs⟩ := hv
        subst hst
        subst hvs
        refine ⟨hcalls, fun hnone => ?_⟩
        rw [h1] at hnone
        exact absurd hnone (by simp)

/-- Witness for C4: the looked-up spelling `q` normalizes to key `r`, so
`q` is still unknown after the discovery and the empty sequence is
returned (no error). -/
theorem versions_for_unknown_witness :
    alookup initState.packages "q" = none ∧
    (∀ st' vs, versions_for constKeyR nullOracle initState "q" none
        = .ok (st', vs) →
      st'.calls = initState.calls
        ++ [Spec.withConstraint "q" (constraintSuffix none)] ∧
      (alookup st'.packages "q" = none → vs = [])) :=
  ⟨rfl, versions_for_unknown constKeyR nullOracle initState "q" none rfl⟩

/-- Claim C5: `add` with `deps=None` over a recorded concrete list succeeds
and overwrites it with the placeholder; and `discover_and_add` re-adds every
version in the discovery result's `available` list with `deps=None`, so
every available version other than the one finally populated ends up as a
placeholder — resetting previously populated entries. -/
theorem add_none_resets (pk : String → String)
    (oracle : Spec → DiscoveryResult) :
    (∀ st n v old, entryOf st n v = some (some old) →
      add pk st n v none = .ok (setEntry st n v none) ∧
      entryOf (setEntry st n v none) n v = some none) ∧
    (∀ st spec st', discover_and_add pk oracle st spec = .ok st' →
      ∀ v, v ∈ (oracle spec).available → v ≠ (oracle spec).version →
        entryOf st' (pk spec.specName) v = some none) := by
  constructor
  · intro st n v old h
    exact ⟨add_none_eq pk st n v, entryOf_setEntry_self st n v none⟩
  · intro st spec st' hok v hv hne
    rw [discover_ok_shape pk oracle st spec st' hok]
    rw [entryOf_setEntry_ne _ _ _ _ _ _ (Or.inr hne)]
    exact entryOf_resetAll_mem _ _ _ hv _

/-- Witness for C5: the populated entry `(p, 1)` of `resetSt1` is
overwritten by a placeholder `add`, and the discovery for `p==2` resets it
as well. -/
theorem add_none_resets_witness :
    (entryOf resetSt1 "p" 1 = some (some [depX]) ∧
      add idKey resetSt1 "p" 1 none = .ok (setEntry resetSt1 "p" 1 none) ∧
      entryOf (setEntry resetSt1 "p" 1 none) "p" 1 = some none) ∧
    (discover_and_add idKey resetOracle resetSt1 (Spec.pinned "p" 2)
        = .ok resetSt2 ∧
      (1 : Nat) ∈ (resetOracle (Spec.pinned "p" 2)).available ∧
      (1 : Nat) ≠ (resetOracle (Spec.pinned "p" 2)).version ∧
      entryOf resetSt2 (idKey (Spec.pinned "p" 2).specName) 1 = some none) :=
  ⟨⟨rfl, ((add_none_resets idKey resetOracle).1 resetSt1 "p" 1 [depX] rfl).1,
    ((add_none_resets idKey resetOracle).1 resetSt1 "p" 1 [depX] rfl).2⟩,
    ⟨rfl, by decide, by decide,
      (add_none_resets idKey resetOracle).2 resetSt1 (.pinned "p" 2) resetSt2
        rfl 1 (by decide) (by decide)⟩⟩

/-- Claim C6: `convert_dependency` maps a range-valued constraint to a
`Constraint` for the dependency's name whose `Range` has exactly the parsed
constraint's `min`, `max`, `include_min` and `include_max`; a union-valued
constraint to a `Constraint` whose `Union` is formed (via `Union.of`) from
ranges with exactly the member ranges' bounds and inclusion flags; and equal
inputs yield equal outputs. -/
theorem convert_dependency_preserves_bounds (d : Dependency) :
    (convert_dependency d).package = d.name ∧
    (∀ r, d.constraint = .range r → ∃ m,
      (convert_dependency d).value = .range m ∧ m.min = r.min ∧
      m.max = r.max ∧ m.include_min = r.include_min ∧
      m.include_max = r.include_max) ∧
    (∀ u, d.constraint = .union u → ∃ ms,
      (convert_dependency d).value = .union (MUnion.of ms) ∧
      ms.length = u.ranges.length ∧
      (∀ i (h1 : i < ms.length) (h2 : i < u.ranges.length),
        (ms.get ⟨i, h1⟩).min = (u.ranges.get ⟨i, h2⟩).min ∧
        (ms.get ⟨i, h1⟩).max = (u.ranges.get ⟨i, h2⟩).max ∧
        (ms.get ⟨i, h1⟩).include_min = (u.ranges.get ⟨i, h2⟩).include_min ∧
        (ms.get ⟨i, h1⟩).include_max = (u.ranges.get ⟨i, h2⟩).include_max)) ∧
    (∀ d2, d = d2 → convert_dependency d = convert_dependency d2) := by
  refine ⟨?_, ?_, ?_, fun d2 hd => by rw [hd]⟩
  · cases hd : d.constraint <;> simp [convert_dependency, hd]
  · intro r hr
    refine ⟨⟨r.min, r.max, r.include_min, r.include_max,
      some d.pretty_constraint⟩, ?_, rfl, rfl, rfl, rfl⟩
    simp [convert_dependency, hr]
  · intro u hu
    refine ⟨u.ranges.map (fun r => MRange.mk r.min r.max r.include_min
      r.include_max (some (rangeStr r))), ?_, by simp, ?_⟩
    · simp [convert_dependency, hu]
    · intro i h1 h2
      simp [List.get_eq_getElem, List.getElem_map]

/-- Witness for C6 at a concrete range-valued dependency. -/
theorem convert_dependency_preserves_bounds_witness :
    ∃ m, (convert_dependency rangeDep).value = .range m ∧
      m.min = (VersionRange.mk (some 1) (some 2) true false).min ∧
      m.max = (VersionRange.mk (some 1) (some 2) true false).max ∧
      m.include_min = (VersionRange.mk (some 1) (some 2) true false).include_min ∧
      m.include_max = (VersionRange.mk (some 1) (some 2) true false).include_max :=
  (convert_dependency_preserves_bounds rangeDep).2.1
    ⟨some 1, some 2, true, false⟩ rfl

/-- Claim C7: for the synthetic root package, `dependencies_for` returns
the adapter's fixed root dependency list, with no external call and no
consultation of the per-package cache (the state — including the call
log — is returned unchanged, whatever it holds). -/
theorem dependencies_for_root (pk : String → String)
    (oracle : Spec → DiscoveryResult) (st : PSState) (v : Nat) :
    dependencies_for pk oracle st .root v = .ok (st, some st.root_dependencies) :=
  rfl

/-- Claim C8: for a non-root package never registered in the cache,
`dependencies_for` fails with a `KeyError` (for every oracle — so no
discovery is triggered). -/
theorem dependencies_for_unregistered (pk : String → String)
    (oracle : Spec → DiscoveryResult) (st : PSState) (name : String)
    (v : Nat) (h : alookup st.packages name = none) :
    dependencies_for pk oracle st (.named name) v = .error .keyError := by
  simp only [dependencies_for, h]

/-- Witness for C8: an empty adapter raises `KeyError` for package `z`. -/
theorem dependencies_for_unregistered_witness :
    alookup initState.packages "z" = none ∧
    dependencies_for idKey nullOracle initState (.named "z") 3
      = .error .keyError :=
  ⟨rfl, dependencies_for_unregistered idKey nullOracle initState "z" 3 rfl⟩

/-- Claim C9: the comma-joined comparator clauses of a requirement are
ANDed into one range (a version is allowed by the parsed constraint exactly
when every clause allows it), a requirement with no clauses parses to the
open 'any version' range, and `root_dep` registers exactly the so-built
`Dependency` in the root dependency list. -/
theorem requirement_clauses_anded (name : String) (clauses : List Clause)
    (v : Nat) :
    (∃ r, (Dependency.init name clauses).constraint = .range r ∧
      rangeAllows r v = clauses.all (fun c => clauseAllows c v) ∧
      (clauses = [] → r = anyRange)) ∧
    (∀ (pk : String → String) (oracle : Spec → DiscoveryResult)
        (st : PSState) (req : Requirement) (st' : PSState),
      root_dep pk oracle st req = .ok st' →
      st'.root_dependencies
        = st.root_dependencies ++ [Dependency.init (pk req.name) req.specs]) := by
  constructor
  · cases clauses with
    | nil => exact ⟨anyRange, rfl, rfl, fun _ => rfl⟩
    | cons c rest =>
      exact ⟨parse_constraint (c :: rest), rfl, rangeAllows_parse _ v,
        fun h => List.noConfusion h⟩
  · intro pk oracle st req st' h
    unfold root_dep at h
    rw [discover_ok_root _ _ _ _ _ h]

/-- Witness for C9 at the requirement `a>=1,<3` and version `2`. -/
theorem requirement_clauses_anded_witness :
    ∃ r, (Dependency.init "a" [⟨.ge, 1⟩, ⟨.lt, 3⟩]).constraint = .range r ∧
      rangeAllows r 2
        = ([⟨.ge, 1⟩, ⟨.lt, 3⟩] : List Clause).all (fun c => clauseAllows c 2) ∧
      (([⟨.ge, 1⟩, ⟨.lt, 3⟩] : List Clause) = [] → r = anyRange) :=
  (requirement_clauses_anded "a" [⟨.ge, 1⟩, ⟨.lt, 3⟩] 2).1

/-- Claim C10 (amended): the `Dependency` class defines no `__eq__`, so
Python `==` is object identity: every `Dependency` object equals itself, and
two objects compare equal exactly when they are the same object — the name
plays no role.  The claim as stated (same name implies equal) is refuted by
`dependency_eq_same_name_not_equal`. -/
theorem dependency_eq_identity (a b : DependencyObj) :
    a.pyEq a = true ∧ (a.pyEq b = true ↔ a.objId = b.objId) := by
  simp [DependencyObj.pyEq]

/-- Counterexample to C10 as stated: two distinct `Dependency` objects with
the same name do not compare equal. -/
theorem dependency_eq_same_name_not_equal :
    dObjA.name = dObjB.name ∧ dObjA.pyEq dObjB = false :=
  ⟨rfl, rfl⟩

end Pipgrip
